import Mathlib

/-!
Verification of the adaptive bitrate and track selection core of the
rx-player repository (the `adaptive` module).  The JavaScript sources are
shallowly embedded: pure helpers become Lean functions, JavaScript numbers
appearing as bitrates and widths become `Nat`, the `Infinity` sentinel is
embedded as `Option.none` (or as a dedicated constructor where a function can
also return non-numeric values), rational thresholds become `ℚ` with the
IEEE special cases (division by zero, `NaN` comparisons) made explicit, and
the reactive event streams are embedded as lists of the values a cell has
held, in emission order.
-/

namespace RxAdaptive

/-- A representation object: one encoded quality variant.  Attributes used by
the adaptive module: a stable identifier, a video width in pixels and a
bitrate in bits per second. -/
structure Representation where
  id : Nat
  width : Nat
  bitrate : Nat
deriving DecidableEq

/-- An adaptation (selectable track) as consumed by the track choosers:
a language tag plus the audio-description and closed-caption flags. -/
structure Adaptation where
  language : String
  isAudioDescription : Bool
  isClosedCaption : Bool
deriving DecidableEq

/-- An audio track preference: `{language, audioDescription}`. -/
structure AudioTrackPref where
  language : String
  audioDescription : Bool
deriving DecidableEq

/-- A text track preference: `{language, closedCaption}`.  The "none"
sentinel (`null` in the source) is embedded as `Option.none` at use sites. -/
structure TextTrackPref where
  language : String
  closedCaption : Bool
deriving DecidableEq

/-- A JavaScript value as it reaches the numeric setters: a finite number
(embedded exactly as a rational), one of the infinities, `NaN`, or any
value whose `typeof` is not `"number"`. -/
inductive JsVal where
  | finite (q : ℚ)
  | posInf
  | negInf
  | nan
  | nonNumber
deriving DecidableEq

/-- Embeds the source helper `find`: return the first array element
satisfying the predicate, `null` (here `none`) otherwise. -/
def find {α : Type} (array : List α) (predicate : α → Bool) : Option α :=
  array.find? predicate

/-- JavaScript truth of `typeof x == "number"`. -/
def isNumber : JsVal → Bool
  | .nonNumber => false
  | _ => true

/-- JavaScript truth of `x > 0`: positive finite numbers and `Infinity`
qualify; `NaN > 0` is false.  The non-number case is unreachable behind the
`typeof` guard and is given the coercion-free value `false`. -/
def gtZero : JsVal → Bool
  | .finite q => decide (0 < q)
  | .posInf => true
  | _ => false

/-- Embeds the source helper named `def` (a Lean keyword, hence the Lean
name): return `x` if `typeof x == "number" && x > 0`, else `val`. -/
def defVal (x val : JsVal) : JsVal :=
  if isNumber x && gtZero x then x else val

/-- The loop condition `(bitrates[i] / btr) <= (1 - threshold)` of
`getClosestBitrate`, with JavaScript arithmetic made explicit: when
`btr = 0` the quotient is `Infinity` (or `NaN` for `0 / 0`) and the
comparison is false either way, hence the `0 < btr` conjunct; for positive
`btr` the quotient is embedded exactly in `ℚ`. -/
def bitrateFits (v btr : Nat) (threshold : ℚ) : Bool :=
  decide (0 < btr ∧ (v : ℚ) / (btr : ℚ) ≤ 1 - threshold)

/-- Embeds `getClosestBitrate(bitrates, btr, threshold=0)`: scan the array
from the last index down and return the first entry whose ratio to `btr` is
at most `1 - threshold`; when the loop falls through, return `bitrates[0]`
(`none` embeds the `undefined` read of an empty array). -/
def getClosestBitrate (bitrates : List Nat) (btr : Nat) (threshold : ℚ) : Option Nat :=
  match bitrates.reverse.find? (fun v => bitrateFits v btr threshold) with
  | some v => some v
  | none => bitrates.head?

/-- Embeds `representations.sort((a, b) => a.width - b.width)`: a stable
ascending sort by width (`Array.prototype.sort` is stable and sorts in
place; the mutation is carried explicitly by the callers). -/
def sortByWidth (representations : List Representation) : List Representation :=
  List.insertionSort (fun a b => a.width ≤ b.width) representations

/-- Embeds the JavaScript comparison `r.width <= maxWidth` appearing in
`getMaxUsefulBitrateforWidth`, where `maxWidth` is the representation
object produced by `find`: relational comparison converts the object with
`ToPrimitive`, yielding the string "[object Object]", whose numeric value
is `NaN`, and every comparison involving `NaN` is false. -/
def jsNumLeObject (_x : Nat) (_o : Representation) : Bool :=
  false

/-- The value returned by `getMaxUsefulBitrateforWidth`: a finite number, the
`Infinity` sentinel, a whole representation object (the `representations[0]`
branch returns the array element itself, not its bitrate), or `undefined`. -/
inductive MaxUsefulResult where
  | bitrate (b : Nat)
  | infinity
  | rep (r : Representation)
  | undefinedValue
deriving DecidableEq

/-- Embeds `getMaxUsefulBitrateforWidth(representations, width)`.  The
in-place `sort` makes `representations` and `sortedRepsByWidth` the same
(now sorted) array, so the later reads of `representations` see the sorted
contents.  `maxWidth` is a representation object, so the `filter` predicate
`r.width <= maxWidth` is the always-false `NaN` comparison and the
`representations[0]` branch runs whenever `find` succeeded. -/
def getMaxUsefulBitrateforWidth (representations : List Representation) (width : Nat) :
    MaxUsefulResult :=
  let sortedRepsByWidth := sortByWidth representations
  match sortedRepsByWidth.find? (fun r => decide (r.width ≥ width)) with
  | some maxWidth =>
    let filteredAdaptations := sortedRepsByWidth.filter (fun r => jsNumLeObject r.width maxWidth)
    match filteredAdaptations.getLast? with
    | some last => MaxUsefulResult.bitrate last.bitrate
    | none =>
      match sortedRepsByWidth.head? with
      | some first => MaxUsefulResult.rep first
      | none => MaxUsefulResult.undefinedValue
  | none => MaxUsefulResult.infinity

/-- The full effect of calling `getMaxUsefulBitrateforWidth`: its return
value together with the contents of the caller's `representations` array
after the call (`Array.prototype.sort` mutates the array in place). -/
def getMaxUsefulBitrateforWidthCall (representations : List Representation) (width : Nat) :
    MaxUsefulResult × List Representation :=
  (getMaxUsefulBitrateforWidth representations width, sortByWidth representations)

/-- JavaScript `<=` on the values `getMaxUsefulBitrateforWidth` actually
returns: numbers compare numerically and `Infinity` sits above every
number.  Two plain objects both `ToPrimitive` to the string
"[object Object]" and compare as equal strings, so object `<=` object is
true; mixing an object (or `undefined`) with a number or `Infinity` falls
back to `ToNumber`, which yields `NaN`, and the comparison is false. -/
def jsLeResult : MaxUsefulResult → MaxUsefulResult → Bool
  | .bitrate a, .bitrate b => decide (a ≤ b)
  | .bitrate _, .infinity => true
  | .infinity, .infinity => true
  | .rep _, .rep _ => true
  | _, _ => false

/-- The representation ladder of the width-capping scenario from the
specification: widths 640, 1280, 1920 and 3840 carrying bitrates 1M, 2M,
4M and 8M. -/
def widthScenarioReps : List Representation :=
  [⟨1, 640, 1000000⟩, ⟨2, 1280, 2000000⟩, ⟨3, 1920, 4000000⟩, ⟨4, 3840, 8000000⟩]

/-- A two-tier ladder used to exercise the width cap away from the
specification scenario. -/
def twoTierReps : List Representation :=
  [⟨1, 640, 1000000⟩, ⟨2, 1280, 2000000⟩]

/-- A representation list that is not sorted by width, used to observe the
in-place mutation performed by the width-capping helper. -/
def unsortedReps : List Representation :=
  [⟨1, 1280, 2000000⟩, ⟨2, 640, 1000000⟩]

/-- C1: the claim expects `getMaxUsefulBitrateforWidth` on the widths
640/1280/1920/3840 with bitrates 1M/2M/4M/8M at target width 1920 to return
the number 4000000; the code instead returns the whole lowest-width
representation object, because the secondary filter compares a number
against the found representation object (a `NaN` comparison, always false)
and the `representations[0]` fallback branch runs. -/
theorem c1_width_cap_returns_object_not_max_bitrate :
    getMaxUsefulBitrateforWidth widthScenarioReps 1920 =
      MaxUsefulResult.rep ⟨1, 640, 1000000⟩
    ∧ getMaxUsefulBitrateforWidth widthScenarioReps 1920 ≠
      MaxUsefulResult.bitrate 4000000 := by
  decide

/-- C4: the width cap does return `Infinity` beyond every representation's
width, but it is not monotonically non-decreasing in the target width: for
in-range widths it returns a representation object, and comparing that
object with the `Infinity` returned past the ladder is a `NaN` comparison
(`ToNumber` of "[object Object]"), so the result at width 700 is not
less-or-equal to the result at width 5000 and the claimed numeric
monotonicity fails. -/
theorem c4_width_cap_not_monotone :
    getMaxUsefulBitrateforWidth twoTierReps 5000 = MaxUsefulResult.infinity
    ∧ jsLeResult (getMaxUsefulBitrateforWidth twoTierReps 700)
        (getMaxUsefulBitrateforWidth twoTierReps 5000) = false := by
  decide

/-- C5: the claim says every call leaves the supplied representation list
with the same elements in the same order; but `Array.prototype.sort`
mutates the caller's array in place, so after a call on a list that is not
already width-ascending the order has changed (the elements survive, only
reordered). -/
theorem c5_width_cap_mutates_input_order :
    (getMaxUsefulBitrateforWidthCall unsortedReps 700).2 =
      [⟨2, 640, 1000000⟩, ⟨1, 1280, 2000000⟩]
    ∧ (getMaxUsefulBitrateforWidthCall unsortedReps 700).2 ≠ unsortedReps := by
  decide

/-- The `DEFAULTS` configuration record of the module. -/
structure DefaultsRecord where
  defaultAudioTrack : AudioTrackPref
  defaultTextTrack : Option TextTrackPref
  defaultBufferSize : Nat
  defaultBufferThreshold : ℚ
  initialVideoBitrate : Nat
  initialAudioBitrate : Nat
  maxVideoBitrate : Option Nat
  maxAudioBitrate : Option Nat
deriving DecidableEq

/-- Embeds the source's `DEFAULTS` constant (`Infinity` ceilings are
embedded as `none`). -/
def DEFAULTS : DefaultsRecord :=
  { defaultAudioTrack := ⟨"fra", false⟩
    defaultTextTrack := none
    defaultBufferSize := 30
    defaultBufferThreshold := 3 / 10
    initialVideoBitrate := 0
    initialAudioBitrate := 0
    maxVideoBitrate := none
    maxAudioBitrate := none }

/-- The mutable cells of the selection engine that the numeric setters
write: user-pinned bitrates, operator max bitrates and buffer sizes. -/
structure AdaptiveState where
  usrAudio : JsVal
  usrVideo : JsVal
  maxAudio : JsVal
  maxVideo : JsVal
  bufAudio : JsVal
  bufVideo : JsVal
  bufText : JsVal
deriving DecidableEq

/-- Embeds `setAudioBitrate(x)`: store `def(x, Infinity)`. -/
def setAudioBitrate (x : JsVal) (s : AdaptiveState) : AdaptiveState :=
  { s with usrAudio := defVal x JsVal.posInf }

/-- Embeds `setVideoBitrate(x)`: store `def(x, Infinity)`. -/
def setVideoBitrate (x : JsVal) (s : AdaptiveState) : AdaptiveState :=
  { s with usrVideo := defVal x JsVal.posInf }

/-- Embeds `setAudioMaxBitrate(x)`: store `def(x, Infinity)`. -/
def setAudioMaxBitrate (x : JsVal) (s : AdaptiveState) : AdaptiveState :=
  { s with maxAudio := defVal x JsVal.posInf }

/-- Embeds `setVideoMaxBitrate(x)`: store `def(x, Infinity)`. -/
def setVideoMaxBitrate (x : JsVal) (s : AdaptiveState) : AdaptiveState :=
  { s with maxVideo := defVal x JsVal.posInf }

/-- Embeds `setAudioBufferSize(x)`: store `def(x, defaultBufferSize)`,
where `defaultBufferSize` is the configured default of the session. -/
def setAudioBufferSize (defaultBufferSize : JsVal) (x : JsVal) (s : AdaptiveState) :
    AdaptiveState :=
  { s with bufAudio := defVal x defaultBufferSize }

/-- Embeds `setVideoBufferSize(x)`: store `def(x, defaultBufferSize)`. -/
def setVideoBufferSize (defaultBufferSize : JsVal) (x : JsVal) (s : AdaptiveState) :
    AdaptiveState :=
  { s with bufVideo := defVal x defaultBufferSize }

/-- Written from the specification text, for comparison with the
source-derived normalization: the argument is a number strictly greater
than zero (positive finite values and positive infinity qualify; `NaN`
does not exceed zero). -/
def specPositiveNumber : JsVal → Bool
  | .finite q => decide (0 < q)
  | .posInf => true
  | _ => false

/-- C8: every numeric setter is total and normalizes at the boundary: the
four bitrate setters store the argument exactly when it is a number
strictly greater than zero and otherwise the `Infinity` sentinel, and the
two buffer-size setters store the argument under the same test and
otherwise the configured default buffer size. -/
theorem c8_setters_normalize (x : JsVal) (s : AdaptiveState) (dbs : JsVal) :
    (setAudioBitrate x s).usrAudio = (if specPositiveNumber x then x else JsVal.posInf)
    ∧ (setVideoBitrate x s).usrVideo = (if specPositiveNumber x then x else JsVal.posInf)
    ∧ (setAudioMaxBitrate x s).maxAudio = (if specPositiveNumber x then x else JsVal.posInf)
    ∧ (setVideoMaxBitrate x s).maxVideo = (if specPositiveNumber x then x else JsVal.posInf)
    ∧ (setAudioBufferSize dbs x s).bufAudio = (if specPositiveNumber x then x else dbs)
    ∧ (setVideoBufferSize dbs x s).bufVideo = (if specPositiveNumber x then x else dbs) := by
  have h : (isNumber x && gtZero x) = specPositiveNumber x := by
    cases x <;> simp [isNumber, gtZero, specPositiveNumber]
  refine ⟨?_, ?_, ?_, ?_, ?_, ?_⟩ <;>
    simp [setAudioBitrate, setVideoBitrate, setAudioMaxBitrate, setVideoMaxBitrate,
      setAudioBufferSize, setVideoBufferSize, defVal, h]

/-- Modelled from the spec: the primary-language form of a tag, used by the
macro-language fallback comparison (a 3-letter tag matches a 2-letter
primary-language prefix). -/
def primaryLanguage (l : String) : String :=
  ⟨l.data.take 2⟩

/-- Modelled from the spec: the Language Matcher `findBetterMatchIndex`
lives in `utils/languages`, which is not among the provided sources.  Per
the specification it maps the list of candidate language tags and a
requested tag to the index of the best match, or "no match": exact tag
equality is preferred, then a macro-language/region-insensitive comparison,
and ties break to the first candidate in list order. -/
def findBetterMatchIndex (languages : List String) (language : String) : Option Nat :=
  match languages.findIdx? (fun l => l == language) with
  | some i => some i
  | none => languages.findIdx? (fun l => primaryLanguage l == primaryLanguage language)

/-- Embeds `findAdaptationByLang(adaptations, language)`: run the matcher
over the adaptations' languages and return the adaptation at the matched
index, or `null`. -/
def findAdaptationByLang (adaptations : List Adaptation) (language : String) :
    Option Adaptation :=
  match findBetterMatchIndex (adaptations.map (fun a => a.language)) language with
  | some index => adaptations[index]?
  | none => none

/-- Embeds `findAudioAdaptation(adaptations, language, audioDescription)`. -/
def findAudioAdaptation (adaptations : List Adaptation) (language : String)
    (audioDescription : Bool) : Option Adaptation :=
  findAdaptationByLang
    (adaptations.filter (fun adaptation => adaptation.isAudioDescription == audioDescription))
    language

/-- Embeds `findTextAdaptation(adaptations, language, closedCaption)`. -/
def findTextAdaptation (adaptations : List Adaptation) (language : String)
    (closedCaption : Bool) : Option Adaptation :=
  findAdaptationByLang
    (adaptations.filter (fun adaptation => adaptation.isClosedCaption == closedCaption))
    language

/-- Embeds the per-preference mapping of `audioAdaptationChoice`: the value
emitted for one preference is `findAudioAdaptation(...) || adaptations[0]`. -/
def audioAdaptationChoice (adaptations : List Adaptation) (pref : AudioTrackPref) :
    Option Adaptation :=
  match findAudioAdaptation adaptations pref.language pref.audioDescription with
  | some a => some a
  | none => adaptations.head?

/-- Embeds the per-preference mapping of `textAdaptationChoice`: `null`
preferences (the "none" sentinel) map to `null`, others to
`findTextAdaptation(...)` with no fallback. -/
def textAdaptationChoice (adaptations : List Adaptation) (arg : Option TextTrackPref) :
    Option Adaptation :=
  match arg with
  | some t => findTextAdaptation adaptations t.language t.closedCaption
  | none => none

/-- A successful `findAdaptationByLang` lookup returns a member of the list
it searched. -/
theorem findAdaptationByLang_mem {adaptations : List Adaptation} {language : String}
    {a : Adaptation} (h : findAdaptationByLang adaptations language = some a) :
    a ∈ adaptations := by
  unfold findAdaptationByLang at h
  rcases hidx : findBetterMatchIndex (adaptations.map (fun x => x.language)) language with _ | i
  · rw [hidx] at h
    cases h
  · rw [hidx] at h
    rcases List.getElem?_eq_some.1 h with ⟨hlt, heq⟩
    exact heq ▸ List.getElem_mem hlt

/-- C6: for a non-empty audio candidate list, the audio chooser filters the
candidates by the `isAudioDescription` flag, runs the language matcher on
the filtered list and emits the match; when the matcher finds nothing it
emits the first candidate of the unfiltered list, so it always emits a
selection. -/
theorem c6_audio_choice_matches_or_first (adaptations : List Adaptation)
    (pref : AudioTrackPref) (hne : adaptations ≠ []) :
    audioAdaptationChoice adaptations pref =
      (match findAdaptationByLang
          (adaptations.filter (fun a => a.isAudioDescription == pref.audioDescription))
          pref.language with
        | some a => some a
        | none => adaptations.head?)
    ∧ (audioAdaptationChoice adaptations pref).isSome = true := by
  refine ⟨rfl, ?_⟩
  unfold audioAdaptationChoice
  rcases h : findAudioAdaptation adaptations pref.language pref.audioDescription with _ | a
  · cases adaptations with
    | nil => exact absurd rfl hne
    | cons b t => simp
  · simp

/-- Candidate list for the audio-selection witness: English and French
audio tracks, neither an audio description. -/
def audioWitnessAdaptations : List Adaptation :=
  [⟨"eng", false, false⟩, ⟨"fra", false, false⟩]

/-- Witness for C6 at the specification's scenario: candidates
eng/fra, preference language "fr", not audio-description. -/
theorem c6_audio_choice_witness :
    audioWitnessAdaptations ≠ []
    ∧ (audioAdaptationChoice audioWitnessAdaptations ⟨"fr", false⟩).isSome = true :=
  ⟨by decide,
    (c6_audio_choice_matches_or_first audioWitnessAdaptations ⟨"fr", false⟩ (by decide)).2⟩

/-- C7: the text chooser emits `null` for the "none" sentinel regardless of
the candidates; otherwise it filters by the `isClosedCaption` flag, runs the
matcher and emits the match or `null`, and anything it does emit comes from
the filtered candidate list (no fallback to the first candidate). -/
theorem c7_text_choice_none_sentinel_and_no_fallback (adaptations : List Adaptation)
    (pref : TextTrackPref) (a : Adaptation) :
    textAdaptationChoice adaptations none = none
    ∧ textAdaptationChoice adaptations (some pref) =
        findAdaptationByLang
          (adaptations.filter (fun x => x.isClosedCaption == pref.closedCaption))
          pref.language
    ∧ (textAdaptationChoice adaptations (some pref) = some a →
        a ∈ adaptations.filter (fun x => x.isClosedCaption == pref.closedCaption)) := by
  refine ⟨rfl, rfl, fun h => ?_⟩
  exact findAdaptationByLang_mem h

/-- Candidate list for the text-selection witness: a single French subtitle
track that is not a closed caption. -/
def textWitnessAdaptations : List Adaptation :=
  [⟨"fra", false, false⟩]

/-- Witness for C7: with a French text preference the chooser emits the
French track, and that emission is a member of the filtered candidates. -/
theorem c7_text_choice_witness :
    textAdaptationChoice textWitnessAdaptations (some ⟨"fra", false⟩) =
      some ⟨"fra", false, false⟩
    ∧ (⟨"fra", false, false⟩ : Adaptation) ∈
        textWitnessAdaptations.filter (fun x => x.isClosedCaption == false) := by
  have heval : textAdaptationChoice textWitnessAdaptations (some ⟨"fra", false⟩) =
      some ⟨"fra", false, false⟩ := by decide
  exact ⟨heval,
    (c7_text_choice_none_sentinel_and_no_fallback textWitnessAdaptations ⟨"fra", false⟩
      ⟨"fra", false, false⟩).2.2 heval⟩

/-- Embeds the `combineLatest` projection of `getBufferAdapters`: from the
latest user bitrate, effective max bound and averaged bitrate (a finite
number by construction), compute `btr` by the priority rule and return the
first representation whose bitrate strictly equals
`getClosestBitrate(bitrates, btr)` (default threshold 0); `none` for the
user or max value embeds `Infinity`, so `usr < Infinity` is `usr ≠ none`. -/
def combineRepresentation (representations : List Representation) (bitrates : List Nat)
    (usr maxB : Option Nat) (avr : Nat) : Option Representation :=
  let btr : Nat :=
    match usr with
    | some u => u
    | none =>
      match maxB with
      | some m => Nat.min m avr
      | none => avr
  find representations
    (fun rep => decide (some rep.bitrate = getClosestBitrate bitrates btr 0))

/-- Written from the specification text, for comparison with the
source-derived `combineRepresentation`: the target bitrate is the
user-pinned bitrate when it is finite, else the minimum of the max bound
and the smoothed estimate when the max bound is finite, else the smoothed
estimate alone. -/
def specTargetBitrate (usr maxB : Option Nat) (avr : Nat) : Nat :=
  match usr with
  | some u => u
  | none =>
    match maxB with
    | some m => Nat.min m avr
    | none => avr

/-- With threshold 0 the scan condition of `getClosestBitrate` is exactly
"the divisor is positive and the entry is at most the target". -/
theorem bitrateFits_zero (v btr : Nat) :
    bitrateFits v btr 0 = (decide (0 < btr) && decide (v ≤ btr)) := by
  by_cases h : 0 < btr
  · have hb : (0 : ℚ) < (btr : ℚ) := by exact_mod_cast h
    simp [bitrateFits, h, div_le_one hb]
  · simp [bitrateFits, h]

/-- C2: the resolver's target bitrate follows the priority rule written in
the specification (`specTargetBitrate`), the emitted representation is
found by matching the ladder value `getClosestBitrate(ladder, target, 0)`,
and whenever the user pin is finite the outcome is independent of the max
bound and of the estimate. -/
theorem c2_user_pin_priority (reps : List Representation) (bitrates : List Nat)
    (usr maxB : Option Nat) (avr : Nat) (u : Nat) (maxB2 : Option Nat) (avr2 : Nat) :
    combineRepresentation reps bitrates usr maxB avr =
      find reps (fun rep =>
        decide (some rep.bitrate = getClosestBitrate bitrates (specTargetBitrate usr maxB avr) 0))
    ∧ combineRepresentation reps bitrates (some u) maxB avr =
        combineRepresentation reps bitrates (some u) maxB2 avr2
    ∧ (∀ rep, combineRepresentation reps bitrates usr maxB avr = some rep →
        some rep.bitrate = getClosestBitrate bitrates (specTargetBitrate usr maxB avr) 0) := by
  refine ⟨rfl, rfl, fun rep h => ?_⟩
  have h2 : List.find?
      (fun rep => decide
        (some rep.bitrate = getClosestBitrate bitrates (specTargetBitrate usr maxB avr) 0))
      reps = some rep := h
  have h3 := @List.find?_some Representation
    (fun r => decide (some r.bitrate = getClosestBitrate bitrates (specTargetBitrate usr maxB avr) 0))
    rep reps h2
  exact of_decide_eq_true h3

/-- Representation list for the user-pin witness: bitrates 100 and 200. -/
def pinWitnessReps : List Representation :=
  [⟨1, 0, 100⟩, ⟨2, 0, 200⟩]

/-- Witness for C2: with the user pin at 150, a max bound of 50 and an
estimate of 0, the emitted representation has bitrate
`getClosestBitrate([100, 200], 150, 0) = 100`: the pin wins over both. -/
theorem c2_user_pin_witness :
    some (Representation.mk 1 0 100).bitrate =
      getClosestBitrate [100, 200] (specTargetBitrate (some 150) (some 50) 0) 0 := by
  apply (c2_user_pin_priority pinWitnessReps [100, 200] (some 150) (some 50) 0 150 none 7).2.2
  show find pinWitnessReps
      (fun rep => decide (some rep.bitrate = getClosestBitrate [100, 200] 150 0)) =
    some (Representation.mk 1 0 100)
  simp only [find, getClosestBitrate, bitrateFits_zero, pinWitnessReps]
  decide

/-- State of a `distinctUntilChanged` scan after at least one emission:
`prev` is the last value that was let through. -/
def distinctUntilChangedAux {α β : Type} [DecidableEq β] (key : α → β) :
    α → List α → List α
  | _, [] => []
  | prev, a :: l =>
    if key a = key prev then distinctUntilChangedAux key prev l
    else a :: distinctUntilChangedAux key a l

/-- Embeds the rxjs `distinctUntilChanged` operator under a key function:
drop every emission whose key equals the key of the previously passed
value. -/
def distinctUntilChangedBy {α β : Type} [DecidableEq β] (key : α → β) :
    List α → List α
  | [] => []
  | a :: l => a :: distinctUntilChangedAux key a l

/-- Appending the same value twice to a stream yields the same
`distinctUntilChanged` output as appending it once, whatever came before. -/
theorem distinctUntilChangedAux_append_dup {α β : Type} [DecidableEq β] (key : α → β)
    (a : α) :
    ∀ (l : List α) (prev : α),
      distinctUntilChangedAux key prev (l ++ [a, a]) =
        distinctUntilChangedAux key prev (l ++ [a]) := by
  intro l
  induction l with
  | nil =>
    intro prev
    by_cases h : key a = key prev <;> simp [distinctUntilChangedAux, h]
  | cons b t ih =>
    intro prev
    by_cases h : key b = key prev <;> simp [distinctUntilChangedAux, h, ih]

/-- The duplicate-collapse property of `distinctUntilChangedBy`. -/
theorem distinctUntilChangedBy_append_dup {α β : Type} [DecidableEq β] (key : α → β)
    (l : List α) (a : α) :
    distinctUntilChangedBy key (l ++ [a, a]) = distinctUntilChangedBy key (l ++ [a]) := by
  cases l with
  | nil => simp [distinctUntilChangedBy, distinctUntilChangedAux]
  | cons b t => simp [distinctUntilChangedBy, distinctUntilChangedAux_append_dup]

/-- The representation-selection output as a function of the history of
user-bitrate values (max bound and estimate held at their latest values):
`combineLatest` re-runs the projection on every `$usrBitrates` emission and
`distinctUntilChanged((a, b) => a.id === b.id)` then drops outputs whose
chosen representation id is unchanged.  The key is total here; the source
comparator would throw on a `null` emission. -/
def representationEmissions (reps : List Representation) (bitrates : List Nat)
    (maxB : Option Nat) (avr : Nat) (usrEvents : List (Option Nat)) :
    List (Option Representation) :=
  distinctUntilChangedBy (Option.map Representation.id)
    (usrEvents.map (fun usr => combineRepresentation reps bitrates usr maxB avr))

/-- The audio-choice output as a function of the history of audio
preferences: `$languages.distinctUntilChanged()` filters duplicates before
the mapping runs (structural equality stands in for the `===` comparison of
a re-used preference object). -/
def audioChoiceEmissions (adaptations : List Adaptation)
    (prefEvents : List AudioTrackPref) : List (Option Adaptation) :=
  (distinctUntilChangedBy (fun p => p) prefEvents).map (audioAdaptationChoice adaptations)

/-- The buffer-size output as a function of the setter-argument history:
`$bufSizes[type]` is handed to consumers as a bare subject, with no
`distinctUntilChanged` stage, so every `next` reaches them. -/
def bufferSizeEmissions (defaultBufferSize : JsVal) (setterArgs : List JsVal) :
    List JsVal :=
  defaultBufferSize :: setterArgs.map (fun x => defVal x defaultBufferSize)

/-- C9 counterexample: calling `setAudioBufferSize(10)` twice in a row
produces two downstream emissions of 10, not one — the buffer-size path has
no duplicate suppression, so the second identical call is not suppressed
and does trigger a downstream recomputation. -/
theorem c9_buffer_setter_duplicate_not_suppressed :
    bufferSizeEmissions (JsVal.finite 30) [JsVal.finite 10, JsVal.finite 10] =
      [JsVal.finite 30, JsVal.finite 10, JsVal.finite 10]
    ∧ bufferSizeEmissions (JsVal.finite 30) [JsVal.finite 10, JsVal.finite 10] ≠
      bufferSizeEmissions (JsVal.finite 30) [JsVal.finite 10] := by
  decide

/-- C9 as amended: a duplicate preference is filtered before the audio
chooser recomputes; a duplicate user-bitrate value re-runs the combiner but
adds no downstream representation emission (suppressed by id); a duplicate
buffer-size setter call is re-emitted downstream unsuppressed. -/
theorem c9_amended_duplicate_suppression (reps : List Representation)
    (bitrates : List Nat) (maxB : Option Nat) (avr : Nat) (l : List (Option Nat))
    (u : Option Nat) (adaptations : List Adaptation) (prefs : List AudioTrackPref)
    (p : AudioTrackPref) (dbs : JsVal) (args : List JsVal) (x : JsVal) :
    representationEmissions reps bitrates maxB avr (l ++ [u, u]) =
      representationEmissions reps bitrates maxB avr (l ++ [u])
    ∧ audioChoiceEmissions adaptations (prefs ++ [p, p]) =
      audioChoiceEmissions adaptations (prefs ++ [p])
    ∧ bufferSizeEmissions dbs (args ++ [x, x]) =
      bufferSizeEmissions dbs (args ++ [x]) ++ [defVal x dbs] := by
  refine ⟨?_, ?_, ?_⟩
  · unfold representationEmissions
    rw [List.map_append, List.map_append]
    exact distinctUntilChangedBy_append_dup _ _ _
  · unfold audioChoiceEmissions
    rw [distinctUntilChangedBy_append_dup]
  · simp [bufferSizeEmissions]

/-- A successful `find?` splits its list at the found element, with every
earlier element failing the predicate. -/
theorem find_eq_some_split {α : Type} (p : α → Bool) :
    ∀ (l : List α) (r : α), l.find? p = some r →
      ∃ l1 l2, l = l1 ++ r :: l2 ∧ ∀ x ∈ l1, p x = false := by
  intro l
  induction l with
  | nil => intro r h; cases h
  | cons a t ih =>
    intro r h
    by_cases ha : p a = true
    · rw [List.find?_cons_of_pos t ha] at h
      cases h
      exact ⟨[], t, rfl, by simp⟩
    · rw [List.find?_cons_of_neg t ha] at h
      obtain ⟨l1, l2, rfl, hfail⟩ := ih r h
      refine ⟨a :: l1, l2, rfl, ?_⟩
      intro x hx
      rcases List.mem_cons.1 hx with rfl | hx2
      · cases hpa : p x
        · rfl
        · exact absurd hpa ha
      · exact hfail x hx2

/-- Scanning an ascending list from its high end, every element strictly
above the value found fails the predicate. -/
theorem revScan_larger_fail {l : List Nat} {p : Nat → Bool} {r : Nat}
    (hs : List.Sorted (· ≤ ·) l) (h : l.reverse.find? p = some r) :
    ∀ v ∈ l, r < v → p v = false := by
  obtain ⟨l1, l2, hsplit, hfail⟩ := find_eq_some_split p l.reverse r h
  have hl : l = l2.reverse ++ r :: l1.reverse := by
    have h2 := congrArg List.reverse hsplit
    simpa using h2
  intro v hv hrv
  rw [hl] at hv hs
  have hs2 : List.Pairwise (· ≤ ·) (l2.reverse ++ r :: l1.reverse) := hs
  rw [List.pairwise_append] at hs2
  rcases List.mem_append.1 hv with h1 | h2
  · have hvr := hs2.2.2 v h1 r (List.mem_cons_self r _)
    omega
  · rcases List.mem_cons.1 h2 with rfl | h3
    · omega
    · exact hfail v (by simpa using h3)

/-- When some element satisfies the predicate, `find?` succeeds and its
result satisfies the predicate. -/
theorem find?_some_of_exists {α : Type} {l : List α} {p : α → Bool}
    (hex : ∃ v ∈ l, p v = true) : ∃ r, l.find? p = some r ∧ p r = true := by
  cases hfind : l.find? p with
  | none =>
    obtain ⟨v, hv, hpv⟩ := hex
    rw [List.find?_eq_none] at hfind
    exact absurd hpv (hfind v hv)
  | some r => exact ⟨r, rfl, List.find?_some hfind⟩

/-- The scan condition is identically false when the target bitrate is 0:
in the source the division yields `Infinity` or `NaN` and the comparison
fails. -/
theorem bitrateFits_btr_zero (v : Nat) (th : ℚ) : bitrateFits v 0 th = false := by
  simp [bitrateFits]

/-- C3: for a non-empty ascending ladder, `getClosestBitrate` returns the
first value, scanning from highest to lowest, whose ratio to the target is
at most `1 - threshold`, and the lowest ladder value when no entry
qualifies; consequently with threshold 0 it returns the largest ladder
value at most the target whenever the target is at least the lowest value,
and the lowest value when the target lies below it. -/
theorem c3_getClosestBitrate_scan (bitrates : List Nat) (btr : Nat) (threshold : ℚ)
    (hne : bitrates ≠ []) (hsorted : List.Sorted (· ≤ ·) bitrates) :
    (∃ r, getClosestBitrate bitrates btr threshold = some r
      ∧ ((bitrateFits r btr threshold = true ∧ r ∈ bitrates
            ∧ ∀ v ∈ bitrates, r < v → bitrateFits v btr threshold = false)
         ∨ ((∀ v ∈ bitrates, bitrateFits v btr threshold = false)
            ∧ bitrates.head? = some r)))
    ∧ (∀ hd, bitrates.head? = some hd →
        (hd ≤ btr → ∃ r, getClosestBitrate bitrates btr 0 = some r
            ∧ r ∈ bitrates ∧ r ≤ btr ∧ ∀ v ∈ bitrates, v ≤ btr → v ≤ r)
        ∧ (btr < hd → getClosestBitrate bitrates btr 0 = some hd)) := by
  constructor
  · cases hfind : bitrates.reverse.find? (fun v => bitrateFits v btr threshold) with
    | some r =>
      refine ⟨r, ?_, Or.inl ⟨?_, ?_, ?_⟩⟩
      · unfold getClosestBitrate
        rw [hfind]
      · have hp := List.find?_some hfind
        change bitrateFits r btr threshold = true at hp
        exact hp
      · exact List.mem_reverse.1 (List.mem_of_find?_eq_some hfind)
      · exact revScan_larger_fail hsorted hfind
    | none =>
      cases bitrates with
      | nil => exact absurd rfl hne
      | cons a t =>
        refine ⟨a, ?_, Or.inr ⟨?_, rfl⟩⟩
        · unfold getClosestBitrate
          rw [hfind]
          rfl
        · intro v hv
          rw [List.find?_eq_none] at hfind
          have := hfind v (List.mem_reverse.2 hv)
          cases hb : bitrateFits v btr threshold
          · rfl
          · exact absurd hb this
  · intro hd hhd
    have hmemhd : hd ∈ bitrates := by
      cases bitrates with
      | nil => cases hhd
      | cons b t =>
        simp only [List.head?_cons, Option.some.injEq] at hhd
        subst hhd
        exact List.mem_cons_self b t
    constructor
    · intro hle
      by_cases hbtr : 0 < btr
      · have hex : ∃ v ∈ bitrates.reverse, bitrateFits v btr 0 = true := by
          refine ⟨hd, List.mem_reverse.2 hmemhd, ?_⟩
          rw [bitrateFits_zero]
          simp [hbtr, hle]
        obtain ⟨r, hfind, hpr⟩ := find?_some_of_exists hex
        rw [bitrateFits_zero] at hpr
        simp only [Bool.and_eq_true, decide_eq_true_eq] at hpr
        have hrle : r ≤ btr := hpr.2
        refine ⟨r, ?_, List.mem_reverse.1 (List.mem_of_find?_eq_some hfind), hrle, ?_⟩
        · unfold getClosestBitrate
          rw [hfind]
        · intro v hv hvle
          by_contra hvr
          have hfl := revScan_larger_fail hsorted hfind v hv (by omega)
          rw [bitrateFits_zero] at hfl
          simp [hbtr, hvle] at hfl
      · have hb0 : btr = 0 := by omega
        subst hb0
        have hfind : bitrates.reverse.find? (fun v => bitrateFits v 0 0) = none := by
          rw [List.find?_eq_none]
          intro x _
          simp [bitrateFits_btr_zero]
        refine ⟨hd, ?_, hmemhd, hle, fun v hv hvle => by omega⟩
        unfold getClosestBitrate
        rw [hfind, hhd]
    · intro hgt
      have hall : ∀ v ∈ bitrates, hd ≤ v := by
        cases bitrates with
        | nil => cases hhd
        | cons b t =>
          simp only [List.head?_cons, Option.some.injEq] at hhd
          subst hhd
          intro v hv
          rcases List.mem_cons.1 hv with rfl | hv2
          · exact Nat.le_refl v
          · exact List.rel_of_sorted_cons hsorted v hv2
      have hfind : bitrates.reverse.find? (fun v => bitrateFits v btr 0) = none := by
        rw [List.find?_eq_none]
        intro x hx
        have hxmem := List.mem_reverse.1 hx
        have hxge := hall x hxmem
        simp only [bitrateFits_zero]
        simp only [Bool.and_eq_true, decide_eq_true_eq, not_and]
        intro _
        omega
      unfold getClosestBitrate
      rw [hfind, hhd]

/-- Ascending ladder of the specification's hysteresis scenario. -/
def scanWitnessLadder : List Nat :=
  [300000, 750000, 1500000, 3000000]

/-- Witness for C3 at the specification's scenario ladder with target
1000000 and threshold 0. -/
theorem c3_getClosestBitrate_witness :
    scanWitnessLadder ≠ []
    ∧ List.Sorted (· ≤ ·) scanWitnessLadder
    ∧ (∀ hd, scanWitnessLadder.head? = some hd →
        (hd ≤ 1000000 → ∃ r, getClosestBitrate scanWitnessLadder 1000000 0 = some r
            ∧ r ∈ scanWitnessLadder ∧ r ≤ 1000000
            ∧ ∀ v ∈ scanWitnessLadder, v ≤ 1000000 → v ≤ r)
        ∧ (1000000 < hd → getClosestBitrate scanWitnessLadder 1000000 0 = some hd)) :=
  ⟨by decide, by decide,
    (c3_getClosestBitrate_scan scanWitnessLadder 1000000 0 (by decide) (by decide)).2⟩

/-- C10: with a target of 0 no ladder entry qualifies (division by zero
fails the comparison), so `getClosestBitrate` returns the lowest ladder
value; the default configuration seeds both estimate cells with 0, so the
zero-threshold `startWith` pick is the lowest ladder value, and with the
default unbounded user and max cells the first emitted representation is a
lowest-bitrate representation of the ladder. -/
theorem c10_initial_pick_is_lowest (bitrates : List Nat) (th : ℚ)
    (reps : List Representation) (hne : bitrates ≠ [])
    (hsorted : List.Sorted (· ≤ ·) bitrates) (hpos : ∀ v ∈ bitrates, 0 < v)
    (hth0 : 0 ≤ th) (hth1 : th < 1)
    (hcover : ∀ b ∈ bitrates, ∃ r ∈ reps, r.bitrate = b) :
    getClosestBitrate bitrates 0 th = bitrates.head?
    ∧ getClosestBitrate bitrates DEFAULTS.initialAudioBitrate 0 = bitrates.head?
    ∧ getClosestBitrate bitrates DEFAULTS.initialVideoBitrate 0 = bitrates.head?
    ∧ (∀ hd, bitrates.head? = some hd →
        ∃ rep, combineRepresentation reps bitrates none none hd = some rep
          ∧ rep.bitrate = hd) := by
  have hzero : ∀ th2 : ℚ, getClosestBitrate bitrates 0 th2 = bitrates.head? := by
    intro th2
    have hfind : bitrates.reverse.find? (fun v => bitrateFits v 0 th2) = none := by
      rw [List.find?_eq_none]
      intro x _
      simp [bitrateFits_btr_zero]
    unfold getClosestBitrate
    rw [hfind]
  refine ⟨hzero th, hzero 0, hzero 0, ?_⟩
  intro hd hhd
  have hmemhd : hd ∈ bitrates := by
    cases bitrates with
    | nil => cases hhd
    | cons b t =>
      simp only [List.head?_cons, Option.some.injEq] at hhd
      subst hhd
      exact List.mem_cons_self b t
  have hdpos : 0 < hd := hpos hd hmemhd
  have hclosest : getClosestBitrate bitrates hd 0 = some hd := by
    have hex : ∃ v ∈ bitrates.reverse, bitrateFits v hd 0 = true := by
      refine ⟨hd, List.mem_reverse.2 hmemhd, ?_⟩
      rw [bitrateFits_zero]
      simp [hdpos]
    obtain ⟨r, hfind, hpr⟩ := find?_some_of_exists hex
    rw [bitrateFits_zero] at hpr
    simp only [Bool.and_eq_true, decide_eq_true_eq] at hpr
    have hrmem : r ∈ bitrates := List.mem_reverse.1 (List.mem_of_find?_eq_some hfind)
    have hge : hd ≤ r := by
      cases bitrates with
      | nil => cases hhd
      | cons b t =>
        simp only [List.head?_cons, Option.some.injEq] at hhd
        subst hhd
        rcases List.mem_cons.1 hrmem with rfl | hr2
        · exact Nat.le_refl r
        · exact List.rel_of_sorted_cons hsorted r hr2
    have hreq : r = hd := by omega
    unfold getClosestBitrate
    rw [hfind, hreq]
  obtain ⟨r0, hr0mem, hr0b⟩ := hcover hd hmemhd
  have hex2 : ∃ v ∈ reps,
      (decide (some v.bitrate = getClosestBitrate bitrates hd 0)) = true := by
    refine ⟨r0, hr0mem, ?_⟩
    rw [hclosest, hr0b]
    exact decide_eq_true rfl
  obtain ⟨rep, hfindrep, hprep⟩ := find?_some_of_exists hex2
  have hrepb : some rep.bitrate = getClosestBitrate bitrates hd 0 := of_decide_eq_true hprep
  rw [hclosest] at hrepb
  refine ⟨rep, ?_, by injection hrepb⟩
  show find reps (fun rep => decide (some rep.bitrate = getClosestBitrate bitrates hd 0)) =
    some rep
  exact hfindrep

/-- Ladder and representations for the C10 witness. -/
def seedWitnessLadder : List Nat :=
  [300000, 750000]

/-- Representations matching `seedWitnessLadder`. -/
def seedWitnessReps : List Representation :=
  [⟨1, 0, 300000⟩, ⟨2, 0, 750000⟩]

/-- Witness for C10 on a two-step ladder with threshold 0. -/
theorem c10_initial_pick_witness :
    getClosestBitrate seedWitnessLadder 0 0 = seedWitnessLadder.head?
    ∧ (∀ hd, seedWitnessLadder.head? = some hd →
        ∃ rep, combineRepresentation seedWitnessReps seedWitnessLadder none none hd = some rep
          ∧ rep.bitrate = hd) :=
  ⟨(c10_initial_pick_is_lowest seedWitnessLadder 0 seedWitnessReps (by decide) (by decide)
      (by decide) (by decide) (by decide) (by decide)).1,
   (c10_initial_pick_is_lowest seedWitnessLadder 0 seedWitnessReps (by decide) (by decide)
      (by decide) (by decide) (by decide) (by decide)).2.2.2⟩

end RxAdaptive
